import Mathlib

/-!
# Verification of the ShapesApp frame-resource / GPU-synchronization core

Shallow embedding of `src/Assignment Files/Shapes/ShapesApp.cpp`
(iansmathew/DirectX-Castle-Assignment): the frame-resource ring, the
CPU/GPU fence gate, the descriptor-heap offset arithmetic, the dirty-count
driven per-object constant-buffer refresh, the geometry concatenation, the
orbit-camera clamping, and the render-item index assignment.

Machine integers (`UINT`, `int`, `UINT64`) are modelled as `ℕ`/`ℤ`; none of
the verified arithmetic approaches an overflow boundary.  Floating-point
camera state is modelled over `ℚ`; the clamping invariants proved here
depend only on the ordered-field structure, not on rounding.
-/

namespace ShapesApp

/-- `const int gNumFrameResources = 3;` (ShapesApp.cpp line 17). -/
def gNumFrameResources : ℕ := 3

/-! ## Descriptor heap offset arithmetic

Embeds `BuildDescriptorHeaps` (lines 406-424), `BuildConstantBufferViews`
(lines 426-475) and the per-draw CBV index computation in `DrawRenderItems`
(line 1057). -/

/-- `numDescriptors = (objCount + 1) * gNumFrameResources;` (line 412),
with the frame-resource count kept as a parameter `N`. -/
def numDescriptors (objCount N : ℕ) : ℕ := (objCount + 1) * N

/-- `mPassCbvOffset = objCount * gNumFrameResources;` (line 415). -/
def passCbvOffset (objCount N : ℕ) : ℕ := objCount * N

/-- `int heapIndex = frameIndex * objCount + i;` (line 444): heap offset of
the object CBV for object `i` in frame slot `frameIndex`. -/
def objectHeapIndex (frameIndex objCount i : ℕ) : ℕ := frameIndex * objCount + i

/-- `int heapIndex = mPassCbvOffset + frameIndex;` (line 465): heap offset
of the pass CBV for frame slot `frameIndex`. -/
def passHeapIndex (objCount N frameIndex : ℕ) : ℕ := passCbvOffset objCount N + frameIndex

/-- `UINT cbvIndex = mCurrFrameResourceIndex * (UINT)mOpaqueRitems.size() + ri->ObjCBIndex;`
(line 1057), the descriptor offset bound during draw. -/
def drawCbvIndex (frameIndex objCount objCBIndex : ℕ) : ℕ :=
  frameIndex * objCount + objCBIndex

/-! ## Synchronization gate and frame-resource ring

Embeds the per-frame ring advance and fence gate of `Update`
(lines 200-212) and the end-of-frame fence stamping of `Draw`
(lines 278-284).  Per-slot `FrameResource::Fence` values are modelled as a
function from slot index to `ℕ` (all slots start at `0`, as
`FrameResource` zero-initializes its fence). -/

/-- The synchronization-relevant state: the current frame-resource slot
index `mCurrFrameResourceIndex`, the per-slot `FrameResource::Fence`
values, and the process-wide counter `mCurrentFence`. -/
structure SyncState where
  idx : ℕ
  fences : ℕ → ℕ
  currentFence : ℕ

/-- State at the end of `Initialize`: slot index `0`, every slot fence `0`,
`mCurrentFence` not yet advanced by any frame. -/
def initSync : SyncState := { idx := 0, fences := fun _ => 0, currentFence := 0 }

/-- Events recorded by the end-of-frame fence handshake, in program order. -/
inductive FenceEvent where
  | storeSlotFence (slot v : ℕ)
  | enqueueSignal (v : ℕ)
deriving DecidableEq

/-- Lines 278-284 of `Draw`:
`mCurrFrameResource->Fence = ++mCurrentFence;` followed by
`mCommandQueue->Signal(mFence.Get(), mCurrentFence);` — increment the
process-wide counter, store it as the current slot's fence, then enqueue
the GPU-side signal.  The returned event list is in program order. -/
def drawFenceSignal (s : SyncState) : SyncState × List FenceEvent :=
  let v := s.currentFence + 1
  ({ s with currentFence := v, fences := fun j => if j = s.idx then v else s.fences j },
   [FenceEvent.storeSlotFence s.idx v, FenceEvent.enqueueSignal v])

/-- Per-frame observations of one `Update`/`Draw` cycle. -/
structure FrameLog where
  slot : ℕ
  wait : Bool
  effectiveCompleted : ℕ
  stamp : ℕ
deriving DecidableEq

/-- One `Update`/`Draw` cycle, parametrized by the ring depth `N` and by
the GPU-reported completed fence value `g` (`mFence->GetCompletedValue()`)
at the time of the gate check:

* line 201: `mCurrFrameResourceIndex = (mCurrFrameResourceIndex + 1) % gNumFrameResources;`
* lines 206-212: block iff `mCurrFrameResource->Fence != 0 &&
  mFence->GetCompletedValue() < mCurrFrameResource->Fence`; a blocking
  wait returns only once the GPU has reached the slot's fence value, so
  the completed value effective at the subsequent uniform-buffer writes
  (`UpdateObjectCBs`/`UpdateMainPassCB`, lines 214-215) is the slot fence
  when a wait occurred and `g` otherwise;
* lines 278-284 (`Draw`): stamp and signal a fresh fence value. -/
def frameStep (N : ℕ) (s : SyncState) (g : ℕ) : SyncState × FrameLog :=
  let i := (s.idx + 1) % N
  let fv := s.fences i
  let wait : Bool := fv != 0 && decide (g < fv)
  let eff := if wait then fv else g
  let s₁ : SyncState := { s with idx := i }
  let d := drawFenceSignal s₁
  (d.1, { slot := i, wait := wait, effectiveCompleted := eff, stamp := s₁.currentFence + 1 })

/-- Run a sequence of frames; each element of `gs` is the GPU-reported
completed fence value observed by that frame's gate check. -/
def runFrames (N : ℕ) (s : SyncState) : List ℕ → SyncState × List FrameLog
  | [] => (s, [])
  | g :: gs =>
    let p := frameStep N s g
    let r := runFrames N p.1 gs
    (r.1, p.2 :: r.2)

/-- Invariant of the synchronization state after `t` frames with ring
depth `N`: the slot index is `t % N`, the process-wide counter is `t`,
and every slot's fence value is at most `t` and, when nonzero, congruent
to its slot index modulo `N` (it was stamped the last time that slot was
current). -/
def SyncInv (N t : ℕ) (s : SyncState) : Prop :=
  s.idx = t % N ∧ s.currentFence = t ∧
    ∀ j, s.fences j ≤ t ∧ (s.fences j ≠ 0 → s.fences j % N = j % N)

/-! ## Render items and the dirty-count driven constant-buffer refresh

Embeds `RenderItem` (lines 21-48) and `UpdateObjectCBs` (lines 356-376).
A 4×4 float matrix is modelled as `Fin 4 → Fin 4 → ℚ`;
`XMMatrixTranspose` swaps the two indices.  A frame resource's per-object
upload buffer is a list of cached constants indexed by `ObjCBIndex`
(`none` = never written). -/

/-- 4×4 matrix, the model of `XMFLOAT4X4`. -/
def Mat : Type := Fin 4 → Fin 4 → ℚ

/-- `XMMatrixTranspose` (line 368). -/
def transposeM (m : Mat) : Mat := fun i j => m j i

/-- The fields of `RenderItem` (lines 21-48) consumed by
`UpdateObjectCBs`: the world transform, the dirty counter
`NumFramesDirty`, and the constant-buffer slot `ObjCBIndex`. -/
structure RenderItemM where
  World : Mat
  NumFramesDirty : ℕ
  ObjCBIndex : ℕ

/-- `UpdateObjectCBs` (lines 356-376) on one frame resource's object
constant buffer: for each render item, if `NumFramesDirty > 0`, store the
transposed world matrix at index `ObjCBIndex`
(`currObjectCB->CopyData(e->ObjCBIndex, objConstants)`) and decrement
`NumFramesDirty`.  Returns the updated items, the updated buffer, and the
number of `CopyData` writes performed. -/
def updateObjectCBs :
    List RenderItemM → List (Option Mat) → List RenderItemM × List (Option Mat) × ℕ
  | [], buf => ([], buf, 0)
  | e :: rest, buf =>
    if 0 < e.NumFramesDirty then
      let buf' := buf.set e.ObjCBIndex (some (transposeM e.World))
      let r := updateObjectCBs rest buf'
      ({ e with NumFramesDirty := e.NumFramesDirty - 1 } :: r.1, r.2.1, r.2.2 + 1)
    else
      let r := updateObjectCBs rest buf
      (e :: r.1, r.2.1, r.2.2)

/-- Run `UpdateObjectCBs` once per listed frame, each time against the
named ring slot's object constant buffer (`bufs` holds one buffer per
frame resource, as built by `BuildFrameResources`, lines 802-809).
Returns the final items, the final ring of buffers, and the per-frame
write counts. -/
def runRing (items : List RenderItemM) (bufs : List (List (Option Mat))) :
    List ℕ → List RenderItemM × List (List (Option Mat)) × List ℕ
  | [] => (items, bufs, [])
  | slot :: rest =>
    let u := updateObjectCBs items (bufs.getD slot [])
    let r := runRing u.1 (bufs.set slot u.2.1) rest
    (r.1, r.2.1, u.2.2 :: r.2.2)

/-- The slots visited by `N` consecutive frames when the current slot
index starts at `s` and each `Update` advances it by `(i + 1) % N`
(line 201). -/
def cycleSlots (s N : ℕ) : List ℕ := (List.range N).map (fun j => (s + j) % N)

/-- `RenderItem` construction with a fresh transform (lines 28-34): the
world matrix is set and `NumFramesDirty = gNumFrameResources`; the same
state results when an existing item's transform is changed and its dirty
counter reset to the ring depth. -/
def mkDirtyItem (W : Mat) (objCBIndex : ℕ) : RenderItemM :=
  { World := W, NumFramesDirty := gNumFrameResources, ObjCBIndex := objCBIndex }

/-- A render item whose dirty counter has reached `0` (steady state). -/
def setDirtyZero (e : RenderItemM) : RenderItemM := { e with NumFramesDirty := 0 }

/-! ## Geometry concatenation

Embeds `BuildShapeGeometry` (lines 527-758).  The source concatenates a
fixed sequence of ten generated meshes; the cumulative-offset arithmetic
(lines 549-626) is embedded over an arbitrary list of input meshes, each
given by its vertex count (`Vertices.size()`) and its 32-bit index list
(`Indices32`). -/

/-- One generated mesh, as consumed by the concatenation: its vertex
count and its list of (32-bit, mesh-local) indices. -/
structure MeshData where
  numVertices : ℕ
  indices : List ℕ
deriving DecidableEq

/-- `SubmeshGeometry`: the recorded sub-range of one shape inside the
concatenated buffers (lines 578-626). -/
structure SubmeshGeometry where
  IndexCount : ℕ
  StartIndexLocation : ℕ
  BaseVertexLocation : ℕ
deriving DecidableEq

/-- The cumulative-offset recursion of lines 549-626: the first shape gets
vertex offset `0` and index offset `0`, and each later shape's offsets are
the previous shape's offsets plus the previous shape's sizes.  `vOff` and
`iOff` accumulate `...VertexOffset` and `...IndexOffset`. -/
def submeshesFrom (vOff iOff : ℕ) : List MeshData → List SubmeshGeometry
  | [] => []
  | m :: rest =>
    { IndexCount := m.indices.length
      StartIndexLocation := iOff
      BaseVertexLocation := vOff } ::
      submeshesFrom (vOff + m.numVertices) (iOff + m.indices.length) rest

/-- The recorded sub-ranges of all shapes, in input order. -/
def buildSubmeshes (shapes : List MeshData) : List SubmeshGeometry :=
  submeshesFrom 0 0 shapes

/-- `totalVertexCount` (lines 633-643): the sum of all shapes' vertex
counts. -/
def totalVertexCount (shapes : List MeshData) : ℕ :=
  (shapes.map MeshData.numVertices).sum

/-- The length of the concatenated index buffer (lines 708-718). -/
def totalIndexCount (shapes : List MeshData) : ℕ :=
  (shapes.map (fun m => m.indices.length)).sum

/-- Modelled from the spec: `GeometryGenerator::MeshData::GetIndices16`
lives in `Common/GeometryGenerator.h`, which is not part of this
repository's sources; the spec treats the generators as external pure
producers of vertex/index arrays, and the core stores their indices in a
16-bit index buffer (`std::vector<std::uint16_t>`, line 708; format
`DXGI_FORMAT_R16_UINT`, line 741).  A 32-bit index is narrowed to 16 bits,
i.e. reduced modulo `2^16`. -/
def getIndices16 (m : MeshData) : List ℕ := m.indices.map (· % 65536)

/-- The concatenated 16-bit index buffer (lines 708-718): the shapes'
16-bit index lists appended in input order. -/
def concatIndices16 (shapes : List MeshData) : List ℕ :=
  (shapes.map getIndices16).flatten

/-- The `MeshGeometry` data produced by `BuildShapeGeometry`: the
concatenated buffers' sizes and contents, the (always 16-bit) index
format, and the per-shape sub-ranges (lines 721-753). -/
structure GeoStore where
  totalVertices : ℕ
  indices16 : List ℕ
  indexFormatIs16Bit : Bool
  submeshes : List SubmeshGeometry
deriving DecidableEq

/-- `BuildShapeGeometry` (lines 527-758), over an arbitrary shape list.
The function is total: the source contains no vertex-count check and no
abort path of its own (its only `ThrowIfFailed` calls guard external
device-resource creation); it unconditionally selects
`DXGI_FORMAT_R16_UINT` (line 741). -/
def buildShapeGeometry (shapes : List MeshData) : GeoStore :=
  { totalVertices := totalVertexCount shapes
    indices16 := concatIndices16 shapes
    indexFormatIs16Bit := true
    submeshes := buildSubmeshes shapes }

/-- Follows the spec's words, for comparison with `buildShapeGeometry`:
"Fails (aborts) if total vertex count exceeds the addressable range of the
chosen index width" — with 16-bit indices, i.e. 65536 vertices. -/
def buildShapeGeometrySpec (shapes : List MeshData) : Option GeoStore :=
  if totalVertexCount shapes ≤ 65536 then some (buildShapeGeometry shapes) else none

/-- A small concrete shape set (three vertices with one triangle, then two
vertices with three indices), used to evaluate the geometry build. -/
def demoShapes : List MeshData := [⟨3, [0, 1, 2]⟩, ⟨2, [0, 1, 0]⟩]

/-! ## Orbit camera input handling

Embeds `OnMouseMove` (lines 300-330) and the camera members
(lines 117-121).  Float arithmetic is modelled over `ℚ`; the clamping
invariants proved below depend only on the order structure. -/

/-- Modelled from the spec: `MathHelper::Pi` lives in
`Common/MathHelper.h`, which is not part of this repository's sources; it
is the single-precision π constant, modelled by the rational literal the
header spells out. -/
def mathHelperPi : ℚ := 3.1415926535

/-- Modelled from the spec: `MathHelper::Clamp(x, low, high)` lives in
`Common/MathHelper.h`, outside this repository's sources; the spec says
the elevation and radius are "clamped" to their ranges, i.e. a value below
the lower bound becomes the lower bound and a value above the upper bound
becomes the upper bound. -/
def clamp (x low high : ℚ) : ℚ := if x < low then low else if high < x then high else x

/-- `XMConvertToRadians` (lines 305-306): degrees to radians, with π
modelled by `mathHelperPi`. -/
def convertToRadians (deg : ℚ) : ℚ := deg * (mathHelperPi / 180)

/-- The camera / mouse members of `ShapesApp` (lines 113-121):
`mTheta`, `mPhi`, `mRadius` and `mLastMousePos`. -/
structure CameraState where
  theta : ℚ
  phi : ℚ
  radius : ℚ
  lastX : ℤ
  lastY : ℤ

/-- Member initializers, lines 117-121: `mTheta = 1.5f*XM_PI`,
`mPhi = 0.2f*XM_PI`, `mRadius = 15.0f` (the last mouse position is set on
the first `OnMouseDown`; its initial value is irrelevant to the clamping
invariants and is modelled as the origin). -/
def initCamera : CameraState :=
  { theta := 1.5 * mathHelperPi, phi := 0.2 * mathHelperPi, radius := 15, lastX := 0, lastY := 0 }

/-- One pointer-move event: the button state word and the cursor
position. -/
structure MouseInput where
  leftButton : Bool
  rightButton : Bool
  x : ℤ
  y : ℤ

/-- `OnMouseMove` (lines 300-330): with the left button held, the orbit
angles move by a quarter degree per pixel and `mPhi` is clamped to
`[0.1, MathHelper::Pi - 0.1]`; otherwise with the right button held, the
radius moves by 0.05 units per pixel and is clamped to `[5, 150]`; the
last mouse position is always updated. -/
def onMouseMove (s : CameraState) (m : MouseInput) : CameraState :=
  let s' :=
    if m.leftButton then
      let dx := convertToRadians (0.25 * ((m.x - s.lastX : ℤ) : ℚ))
      let dy := convertToRadians (0.25 * ((m.y - s.lastY : ℤ) : ℚ))
      { s with
        theta := s.theta + dx
        phi := clamp (s.phi + dy) 0.1 (mathHelperPi - 0.1) }
    else if m.rightButton then
      let dx := 0.05 * ((m.x - s.lastX : ℤ) : ℚ)
      let dy := 0.05 * ((m.y - s.lastY : ℤ) : ℚ)
      { s with radius := clamp (s.radius + dx - dy) 5 150 }
    else s
  { s' with lastX := m.x, lastY := m.y }

/-- The camera bounds asserted by the claim: elevation within
`[0.1, π - 0.1]` and radius within `[5, 150]`. -/
def CameraInBounds (s : CameraState) : Prop :=
  0.1 ≤ s.phi ∧ s.phi ≤ mathHelperPi - 0.1 ∧ 5 ≤ s.radius ∧ s.radius ≤ 150

/-! ## Scene render items

Embeds `BuildRenderItems` (lines 811-1039): twenty-two render items are
constructed in a fixed order, each receiving `ObjCBIndex = objIndex++`
from a counter starting at `0`, and every item is then pushed into
`mOpaqueRitems` (lines 1036-1038). -/

/-- The shape sub-range (`DrawArgs` key) each constructed render item
references. -/
inductive ShapeKey where
  | box | grid | sphere | cylinder | pyramid | wedge | cone | halfCone | prism | diamond
deriving DecidableEq

/-- The draw-relevant fields of a constructed render item: its
constant-buffer index and the shape sub-range it references. -/
structure RenderItemRec where
  ObjCBIndex : ℕ
  shape : ShapeKey
deriving DecidableEq

/-- The shapes referenced by the twenty-two render items of
`BuildRenderItems`, in construction order (lines 816-1034): five castle
walls (boxes), four tower cylinders, four tower cones, the ground grid,
the sphere, two pyramids, two wedges, the half-cone, the prism and the
diamond. -/
def sceneShapes : List ShapeKey :=
  [.box, .box, .box, .box, .box,
   .cylinder, .cylinder, .cylinder, .cylinder,
   .cone, .cone, .cone, .cone,
   .grid, .sphere, .pyramid, .pyramid, .wedge, .wedge, .halfCone, .prism, .diamond]

/-- The `objIndex++` assignment pattern of `BuildRenderItems`: each
constructed item takes the counter's current value, which then
increments. -/
def buildRenderItemsAux (objIndex : ℕ) : List ShapeKey → List RenderItemRec
  | [] => []
  | k :: rest => { ObjCBIndex := objIndex, shape := k } :: buildRenderItemsAux (objIndex + 1) rest

/-- `mAllRitems` as built by `BuildRenderItems` (lines 811-1034), with the
counter starting at `0` (line 814). -/
def mAllRitems : List RenderItemRec := buildRenderItemsAux 0 sceneShapes

/-- `mOpaqueRitems` (lines 1036-1038): every render item is opaque. -/
def mOpaqueRitems : List RenderItemRec := mAllRitems

/-! ## Theorems -/

lemma frameStep_fst (N : ℕ) (s : SyncState) (g : ℕ) :
    (frameStep N s g).1 =
      { idx := (s.idx + 1) % N,
        fences := fun j => if j = (s.idx + 1) % N then s.currentFence + 1 else s.fences j,
        currentFence := s.currentFence + 1 } := rfl

lemma frameStep_wait (N : ℕ) (s : SyncState) (g : ℕ) :
    (frameStep N s g).2.wait =
      ((s.fences ((s.idx + 1) % N) != 0) && decide (g < s.fences ((s.idx + 1) % N))) := rfl

lemma frameStep_eff (N : ℕ) (s : SyncState) (g : ℕ) :
    (frameStep N s g).2.effectiveCompleted =
      (if ((s.fences ((s.idx + 1) % N) != 0) && decide (g < s.fences ((s.idx + 1) % N)))
        then s.fences ((s.idx + 1) % N) else g) := rfl

lemma frameStep_stamp (N : ℕ) (s : SyncState) (g : ℕ) :
    (frameStep N s g).2.stamp = s.currentFence + 1 := rfl

lemma runFrames_stamps (N : ℕ) (s : SyncState) (gs : List ℕ) :
    ((runFrames N s gs).2.map FrameLog.stamp) = List.range' (s.currentFence + 1) gs.length := by
  induction gs generalizing s with
  | nil => simp [runFrames]
  | cons g gs ih =>
    show (frameStep N s g).2.stamp ::
        ((runFrames N (frameStep N s g).1 gs).2.map FrameLog.stamp) = _
    rw [ih, frameStep_stamp, frameStep_fst]
    simp [List.range'_succ]

lemma syncInv_step (N t : ℕ) (s : SyncState) (g : ℕ) (hs : SyncInv N t s) :
    SyncInv N (t + 1) (frameStep N s g).1 := by
  obtain ⟨hidx, hcf, hfences⟩ := hs
  have hi : (s.idx + 1) % N = (t + 1) % N := by rw [hidx, Nat.mod_add_mod]
  rw [frameStep_fst]
  refine ⟨hi, ?_, ?_⟩
  · show s.currentFence + 1 = t + 1
    omega
  intro j
  dsimp only
  split_ifs with hj
  · refine ⟨by omega, fun _ => ?_⟩
    subst hj
    rw [hi, Nat.mod_mod_of_dvd _ dvd_rfl, hcf]
  · exact ⟨by have := (hfences j).1; omega, (hfences j).2⟩

lemma runFrames_no_wait (N : ℕ) (gs : List ℕ) (t : ℕ) (s : SyncState)
    (hs : SyncInv N t s) (hlen : t + gs.length ≤ N) :
    ((runFrames N s gs).2.map FrameLog.wait) = List.replicate gs.length false := by
  induction gs generalizing t s with
  | nil => simp [runFrames]
  | cons g gs ih =>
    obtain ⟨hidx, hcf, hfences⟩ := hs
    have hlen' : t + 1 ≤ N := by
      have := List.length_cons g gs ▸ hlen
      omega
    have hfv : s.fences ((t + 1) % N) = 0 := by
      have h1 := (hfences ((t + 1) % N)).1
      have h2 := (hfences ((t + 1) % N)).2
      set fv := s.fences ((t + 1) % N) with hfvdef
      by_contra hne
      have h2' := h2 hne
      rw [Nat.mod_mod_of_dvd _ dvd_rfl] at h2'
      have hlt : fv < N := by omega
      rw [Nat.mod_eq_of_lt hlt] at h2'
      rcases Nat.lt_or_ge (t + 1) N with hc | hc
      · rw [Nat.mod_eq_of_lt hc] at h2'
        omega
      · have hEq : t + 1 = N := by omega
        rw [hEq, Nat.mod_self] at h2'
        omega
    have hiN : (s.idx + 1) % N = (t + 1) % N := by rw [hidx, Nat.mod_add_mod]
    have hwait : (frameStep N s g).2.wait = false := by
      rw [frameStep_wait, hiN, hfv]
      simp
    show (frameStep N s g).2.wait ::
        ((runFrames N (frameStep N s g).1 gs).2.map FrameLog.wait) = _
    rw [hwait, List.length_cons, List.replicate_succ]
    exact congrArg (List.cons false)
      (ih (t + 1) (frameStep N s g).1 (syncInv_step N t s g ⟨hidx, hcf, hfences⟩)
        (by simp at hlen; omega))

/-- C1: the per-frame update blocks before reusing a ring slot if and
only if the slot's last-submitted fence value is nonzero and the
GPU-reported completed value is less than it (lines 206-212);
consequently the GPU-completed value effective at the moment the slot's
uniform buffers are overwritten is at least the slot's last-submitted
fence value; and since every slot's fence value starts at `0`, no wait
occurs during the first `N` frames, for every ring depth `N` and every
sequence of GPU-reported completed values. -/
theorem update_fence_gate_correct :
    (∀ (N : ℕ) (s : SyncState) (g : ℕ),
      ((frameStep N s g).2.wait = true) ↔
        (s.fences ((s.idx + 1) % N) ≠ 0 ∧ g < s.fences ((s.idx + 1) % N))) ∧
    (∀ (N : ℕ) (s : SyncState) (g : ℕ),
      s.fences ((s.idx + 1) % N) ≤ (frameStep N s g).2.effectiveCompleted) ∧
    (∀ (N : ℕ) (gs : List ℕ),
      ((runFrames N initSync (gs.take N)).2.map FrameLog.wait) =
        List.replicate (gs.take N).length false) := by
  refine ⟨?_, ?_, ?_⟩
  · intro N s g
    rw [frameStep_wait]
    simp [Bool.and_eq_true, bne_iff_ne]
  · intro N s g
    rw [frameStep_eff]
    split_ifs with h
    · exact le_refl _
    · simp only [Bool.and_eq_true, bne_iff_ne, decide_eq_true_eq, not_and, not_lt] at h
      rcases Nat.eq_zero_or_pos (s.fences ((s.idx + 1) % N)) with hz | hp
      · omega
      · exact h (by omega)
  · intro N gs
    rcases Nat.eq_zero_or_pos N with hN | hN
    · subst hN
      simp [runFrames]
    · refine runFrames_no_wait N (gs.take N) 0 initSync ?_ ?_
      · exact ⟨by simp [initSync], rfl, fun j => ⟨le_refl _, fun h => absurd rfl h⟩⟩
      · have := List.length_take N gs
        omega

/-- C5: every `Draw` increments the process-wide fence counter by
exactly `1`, stores the new value as the current slot's last-submitted
fence value, and only then enqueues the GPU-side signal for that value
(the event list is in program order, lines 278-284); across any run from
initialization the fence values stamped at end of frame are
`1, 2, …, k` — strictly increasing. -/
theorem draw_fence_signal_monotone :
    (∀ s : SyncState,
      (drawFenceSignal s).1.currentFence = s.currentFence + 1 ∧
      (drawFenceSignal s).1.fences s.idx = s.currentFence + 1 ∧
      (drawFenceSignal s).2 =
        [FenceEvent.storeSlotFence s.idx (s.currentFence + 1),
         FenceEvent.enqueueSignal (s.currentFence + 1)]) ∧
    ∀ (N : ℕ) (gs : List ℕ),
      ((runFrames N initSync gs).2.map FrameLog.stamp) = List.range' 1 gs.length ∧
      ((runFrames N initSync gs).2.map FrameLog.stamp).Pairwise (· < ·) := by
  constructor
  · intro s
    refine ⟨rfl, ?_, rfl⟩
    show (if s.idx = s.idx then s.currentFence + 1 else s.fences s.idx) = s.currentFence + 1
    simp
  · intro N gs
    have h := runFrames_stamps N initSync gs
    rw [h]
    exact ⟨rfl, List.pairwise_lt_range' _ _⟩


/-- Quotient/remainder uniqueness for the heap-offset encoding: with the
object index strictly below the object count, `f * objCount + i`
determines both `f` and `i`. -/
lemma objectHeapIndex_inj {objCount f i f' i' : ℕ} (hi : i < objCount) (hi' : i' < objCount)
    (h : objectHeapIndex f objCount i = objectHeapIndex f' objCount i') : f = f' ∧ i = i' := by
  have hc : 0 < objCount := Nat.pos_of_ne_zero (by omega)
  have hdiv : ∀ a b : ℕ, b < objCount → (a * objCount + b) / objCount = a := by
    intro a b hb
    rw [Nat.mul_comm a objCount, Nat.mul_add_div hc, Nat.div_eq_of_lt hb]
    omega
  have hf : f = f' := by
    have h1 := hdiv f i hi
    have h2 := hdiv f' i' hi'
    rw [objectHeapIndex, objectHeapIndex] at h
    rw [← h1, ← h2, h]
  refine ⟨hf, ?_⟩
  rw [objectHeapIndex, objectHeapIndex, hf] at h
  omega

/-- C2: the descriptor heap has capacity `N × (object_count + 1)`; object
views sit at `f × object_count + i` strictly below the pass block at
`object_count × N + f`, itself strictly below the capacity; object
offsets for distinct `(slot, object)` pairs are distinct; and the
concrete instances `object_view_offset(2, 5) = 39` and
`pass_view_offset(2) = 53` hold for `object_count = 17`, `N = 3`. -/
theorem descriptor_offset_arithmetic (objCount N f i f' i' : ℕ)
    (hf : f < N) (hi : i < objCount) (hf' : f' < N) (hi' : i' < objCount)
    (hne : ¬(f = f' ∧ i = i')) :
    objectHeapIndex 2 17 5 = 39 ∧
    passHeapIndex 17 3 2 = 53 ∧
    numDescriptors objCount N = N * (objCount + 1) ∧
    objectHeapIndex f objCount i < passCbvOffset objCount N ∧
    passCbvOffset objCount N ≤ passHeapIndex objCount N f ∧
    passHeapIndex objCount N f < numDescriptors objCount N ∧
    objectHeapIndex f objCount i ≠ objectHeapIndex f' objCount i' := by
  refine ⟨by decide, by decide, Nat.mul_comm _ _, ?_, ?_, ?_, ?_⟩
  · calc f * objCount + i < f * objCount + objCount := by omega
    _ = (f + 1) * objCount := by ring
    _ ≤ N * objCount := Nat.mul_le_mul_right _ hf
    _ = objCount * N := Nat.mul_comm _ _
  · exact Nat.le_add_right _ _
  · show objCount * N + f < (objCount + 1) * N
    have : (objCount + 1) * N = objCount * N + N := by ring
    omega
  · intro hcontra
    exact hne (objectHeapIndex_inj hi hi' hcontra)

/-- Closed instance of `descriptor_offset_arithmetic` at
`object_count = 17`, `N = 3`, slots `2`/`1` and object `5`. -/
theorem descriptor_offset_arithmetic_witness :
    objectHeapIndex 2 17 5 = 39 ∧
    passHeapIndex 17 3 2 = 53 ∧
    numDescriptors 17 3 = 3 * (17 + 1) ∧
    objectHeapIndex 2 17 5 < passCbvOffset 17 3 ∧
    passCbvOffset 17 3 ≤ passHeapIndex 17 3 2 ∧
    passHeapIndex 17 3 2 < numDescriptors 17 3 ∧
    objectHeapIndex 2 17 5 ≠ objectHeapIndex 1 17 5 :=
  descriptor_offset_arithmetic 17 3 2 5 1 5 (by decide) (by decide) (by decide) (by decide)
    (by decide)

/-- C10: `BuildRenderItems` assigns `ObjCBIndex` values consecutively
`0 … 21` with no duplicates, places every item in the opaque list, and for
every frame slot `f < gNumFrameResources` the per-draw descriptor index
`f × object_count + ObjCBIndex` stays strictly below the pass-descriptor
block at `object_count × N`, which in turn is strictly below the heap
capacity `N × (object_count + 1)`. -/
theorem render_item_indices_in_range :
    mAllRitems.map RenderItemRec.ObjCBIndex = List.range 22 ∧
    (mAllRitems.map RenderItemRec.ObjCBIndex).Nodup ∧
    mOpaqueRitems = mAllRitems ∧
    ((List.range gNumFrameResources).all fun f =>
      mOpaqueRitems.all fun ri =>
        decide (drawCbvIndex f mOpaqueRitems.length ri.ObjCBIndex <
          passCbvOffset mOpaqueRitems.length gNumFrameResources) &&
        decide (passCbvOffset mOpaqueRitems.length gNumFrameResources <
          numDescriptors mOpaqueRitems.length gNumFrameResources)) = true := by
  refine ⟨by decide, by decide, rfl, by decide⟩

/-- C4 (counterexample): the claimed slot-index sequence `0,1,2,0,1` is
wrong for the code: `mCurrFrameResourceIndex` starts at `0` and `Update`
advances it *before* the frame uses it, so the first cycle already runs
on slot `1`. -/
theorem ring_index_first_cycles_counterexample :
    ¬(((runFrames gNumFrameResources initSync [0, 0, 0, 0, 0]).2.map FrameLog.slot) =
      [0, 1, 2, 0, 1]) := by decide

/-- C4 (amended): after `initialize()`, during 5 successive
`update()`/`draw()` cycles with ring depth `N = 3` the current
frame-resource slot index takes the values `1, 2, 0, 1, 2` (not
`0, 1, 2, 0, 1`), the index being advanced by the circular rule
`(i + 1) % N` once per update as the only mutator of which slot is
current. -/
theorem ring_index_cycle_values (g1 g2 g3 g4 g5 : ℕ) :
    ((runFrames gNumFrameResources initSync [g1, g2, g3, g4, g5]).2.map FrameLog.slot) =
      [1, 2, 0, 1, 2] ∧
    ∀ (N : ℕ) (s : SyncState) (g : ℕ), (frameStep N s g).1.idx = (s.idx + 1) % N := by
  refine ⟨?_, fun _ _ _ => rfl⟩
  simp [runFrames, frameStep, drawFenceSignal, initSync, gNumFrameResources]

/-- The three slots visited by a fully cycling ring of depth `3`,
spelled out. -/
lemma cycleSlots_three (s : ℕ) : cycleSlots s 3 = [s % 3, (s + 1) % 3, (s + 2) % 3] := by
  have h : List.range 3 = [0, 1, 2] := rfl
  rw [cycleSlots, h]
  simp

/-- C3: a render item whose transform is `W` and whose dirty counter is
`N = gNumFrameResources = 3` (as at construction, or after a transform
change resets the counter) undergoes, over `N` update calls with the ring
fully cycling from any starting slot and any previous buffer contents,
exactly one uniform-buffer write per call (write counts `[1, 1, 1]`),
each storing the transposed world matrix into the then-active frame
resource's slot; afterwards every ring slot's cached uniform equals
`transposeM W` and the dirty counter is `0`. -/
theorem dirty_propagation_converges (W : Mat) (s : ℕ) (b0 b1 b2 : Option Mat) :
    runRing [mkDirtyItem W 0] [[b0], [b1], [b2]] (cycleSlots s 3) =
      ([{ World := W, NumFramesDirty := 0, ObjCBIndex := 0 }],
       [[some (transposeM W)], [some (transposeM W)], [some (transposeM W)]],
       [1, 1, 1]) := by
  rw [cycleSlots_three]
  have h3 : s % 3 = 0 ∨ s % 3 = 1 ∨ s % 3 = 2 := by omega
  rcases h3 with h | h | h
  · have h1 : (s + 1) % 3 = 1 := by omega
    have h2 : (s + 2) % 3 = 2 := by omega
    rw [h, h1, h2]
    rfl
  · have h1 : (s + 1) % 3 = 2 := by omega
    have h2 : (s + 2) % 3 = 0 := by omega
    rw [h, h1, h2]
    rfl
  · have h1 : (s + 1) % 3 = 0 := by omega
    have h2 : (s + 2) % 3 = 1 := by omega
    rw [h, h1, h2]
    rfl

/-- `UpdateObjectCBs` on a list of items whose dirty counters are all `0`
takes the `NumFramesDirty > 0` guard's else branch throughout: no buffer
write, no item change. -/
lemma updateObjectCBs_clean (items : List RenderItemM) (buf : List (Option Mat)) :
    updateObjectCBs (items.map setDirtyZero) buf = (items.map setDirtyZero, buf, 0) := by
  induction items with
  | nil => rfl
  | cons e rest ih =>
    simp only [List.map_cons, updateObjectCBs, setDirtyZero]
    simp [ih]

/-- C8: with every render item's dirty counter already `0` and no
transform change in between, an update performs zero per-object
uniform-buffer writes (the write is guarded by `NumFramesDirty > 0`), and
so does a second update of the same ring slot run on the state the first
one left behind. -/
theorem update_clean_slot_no_writes (items : List RenderItemM) (buf : List (Option Mat)) :
    updateObjectCBs (items.map setDirtyZero) buf = (items.map setDirtyZero, buf, 0) ∧
    updateObjectCBs (updateObjectCBs (items.map setDirtyZero) buf).1
        (updateObjectCBs (items.map setDirtyZero) buf).2.1 =
      (items.map setDirtyZero, buf, 0) := by
  have h := updateObjectCBs_clean items buf
  refine ⟨h, ?_⟩
  rw [h]
  exact updateObjectCBs_clean items buf

/-- Coverage of the concatenated index buffer by the cumulative
sub-ranges: starting from index offset `iOff`, a position `j` lies in
`[iOff, iOff + total)` iff some recorded sub-range contains it. -/
lemma submeshesFrom_cover (shapes : List MeshData) (vOff iOff j : ℕ) :
    (iOff ≤ j ∧ j < iOff + totalIndexCount shapes) ↔
      ∃ r ∈ submeshesFrom vOff iOff shapes,
        r.StartIndexLocation ≤ j ∧ j < r.StartIndexLocation + r.IndexCount := by
  induction shapes generalizing vOff iOff with
  | nil =>
    simp [submeshesFrom, totalIndexCount]
  | cons m rest ih =>
    have ih' := ih (vOff + m.numVertices) (iOff + m.indices.length)
    simp only [submeshesFrom, totalIndexCount, List.map_cons, List.sum_cons, List.mem_cons] at *
    constructor
    · rintro ⟨hle, hlt⟩
      by_cases hj : j < iOff + m.indices.length
      · exact ⟨_, Or.inl rfl, hle, hj⟩
      · obtain ⟨r, hr, hc⟩ := ih'.mp ⟨by omega, by omega⟩
        exact ⟨r, Or.inr hr, hc⟩
    · rintro ⟨r, hr | hr, hc⟩
      · subst hr
        simp at hc
        omega
      · have := ih'.mpr ⟨r, hr, hc⟩
        omega

/-- Every sub-range recorded from index offset `iOff` onwards starts at or
after `iOff`. -/
lemma submeshesFrom_start_le (shapes : List MeshData) (vOff iOff : ℕ) :
    ∀ r ∈ submeshesFrom vOff iOff shapes, iOff ≤ r.StartIndexLocation := by
  induction shapes generalizing vOff iOff with
  | nil => simp [submeshesFrom]
  | cons m rest ih =>
    intro r hr
    simp only [submeshesFrom, List.mem_cons] at hr
    rcases hr with hr | hr
    · subst hr
      exact le_refl _
    · have := ih (vOff + m.numVertices) (iOff + m.indices.length) r hr
      omega

/-- The recorded sub-ranges are ordered and disjoint: each one ends at or
before the next one starts. -/
lemma submeshesFrom_pairwise (shapes : List MeshData) (vOff iOff : ℕ) :
    (submeshesFrom vOff iOff shapes).Pairwise
      (fun r r' => r.StartIndexLocation + r.IndexCount ≤ r'.StartIndexLocation) := by
  induction shapes generalizing vOff iOff with
  | nil => simp [submeshesFrom]
  | cons m rest ih =>
    simp only [submeshesFrom]
    refine List.Pairwise.cons ?_ (ih _ _)
    intro r hr
    have := submeshesFrom_start_le rest (vOff + m.numVertices) (iOff + m.indices.length) r hr
    simp only
    omega

/-- With every mesh's local indices below its own vertex count, each
shape's base vertex plus any of its local indices stays below the end of
the concatenated vertex buffer. -/
lemma submeshesFrom_vertex_bound (shapes : List MeshData) (vOff iOff : ℕ)
    (hvalid : ∀ m ∈ shapes, ∀ ix ∈ m.indices, ix < m.numVertices) :
    ∀ p ∈ shapes.zip (submeshesFrom vOff iOff shapes), ∀ ix ∈ p.1.indices,
      p.2.BaseVertexLocation + ix < vOff + totalVertexCount shapes := by
  induction shapes generalizing vOff iOff with
  | nil => simp
  | cons m rest ih =>
    intro p hp ix hix
    simp only [submeshesFrom, List.zip_cons_cons, List.mem_cons] at hp
    simp only [totalVertexCount, List.map_cons, List.sum_cons]
    rcases hp with hp | hp
    · subst hp
      simp only at hix ⊢
      have := hvalid m (List.mem_cons_self _ _) ix hix
      omega
    · have hrec := ih (vOff + m.numVertices) (iOff + m.indices.length)
        (fun m' hm' => hvalid m' (List.mem_cons_of_mem _ hm')) p hp ix hix
      have : vOff + m.numVertices + totalVertexCount rest =
          vOff + (m.numVertices + totalVertexCount rest) := by omega
      rw [this] at hrec
      simpa [totalVertexCount] using hrec

/-- C6: geometry build records per-shape sub-ranges whose
`[start_index, start_index + index_count)` intervals exactly tile
`[0, total_index_count)` — every position below the total is covered, no
position at or above it is, and the ranges are pairwise disjoint — and,
provided each mesh's local indices are below its own vertex count (the
contract of the external mesh generators), every shape's `base_vertex`
plus any (in particular the largest) of its local vertex indices stays
within the concatenated vertex buffer. -/
theorem geometry_subranges_tile (shapes : List MeshData)
    (hvalid : ∀ m ∈ shapes, ∀ ix ∈ m.indices, ix < m.numVertices) :
    (∀ j, j < totalIndexCount shapes ↔
      ∃ r ∈ buildSubmeshes shapes,
        r.StartIndexLocation ≤ j ∧ j < r.StartIndexLocation + r.IndexCount) ∧
    (buildSubmeshes shapes).Pairwise
      (fun r r' => r.StartIndexLocation + r.IndexCount ≤ r'.StartIndexLocation) ∧
    ∀ p ∈ shapes.zip (buildSubmeshes shapes), ∀ ix ∈ p.1.indices,
      p.2.BaseVertexLocation + ix < totalVertexCount shapes := by
  refine ⟨?_, submeshesFrom_pairwise shapes 0 0, ?_⟩
  · intro j
    have h := submeshesFrom_cover shapes 0 0 j
    simpa [buildSubmeshes] using h
  · have h := submeshesFrom_vertex_bound shapes 0 0 hvalid
    simpa [buildSubmeshes] using h

/-- Closed instance of `geometry_subranges_tile` on `demoShapes`:
position `3` is covered, the ranges are disjoint, and the second shape's
base vertex `3` plus its local index `1` is within the five concatenated
vertices. -/
theorem geometry_subranges_tile_witness :
    (3 < totalIndexCount demoShapes ↔
      ∃ r ∈ buildSubmeshes demoShapes,
        r.StartIndexLocation ≤ 3 ∧ 3 < r.StartIndexLocation + r.IndexCount) ∧
    (buildSubmeshes demoShapes).Pairwise
      (fun r r' => r.StartIndexLocation + r.IndexCount ≤ r'.StartIndexLocation) ∧
    3 + 1 < totalVertexCount demoShapes := by
  have h := geometry_subranges_tile demoShapes (by decide)
  exact ⟨h.1 3, h.2.1,
    h.2.2 (⟨⟨2, [0, 1, 0]⟩, ⟨3, 3, 3⟩⟩ : MeshData × SubmeshGeometry) (by decide) 1 (by decide)⟩

/-- C7 (counterexample): the claim that geometry build fails (aborts)
once the total vertex count exceeds the 16-bit addressable range is wrong
for the code: `BuildShapeGeometry` performs no such check.  On a shape
set with 70000 vertices the spec-mandated build aborts
(`buildShapeGeometrySpec` = `none`) while the code completes normally,
still selecting the 16-bit index format and silently narrowing the local
index 69999 to 4463. -/
theorem geometry_build_never_aborts_counterexample :
    totalVertexCount [⟨70000, [69999]⟩] > 65536 ∧
    buildShapeGeometrySpec [⟨70000, [69999]⟩] = none ∧
    buildShapeGeometry [⟨70000, [69999]⟩] =
      { totalVertices := 70000, indices16 := [4463], indexFormatIs16Bit := true,
        submeshes := [⟨1, 0, 0⟩] } := by
  refine ⟨by decide, ?_, by decide⟩
  show (if totalVertexCount [⟨70000, [69999]⟩] ≤ 65536 then _ else none) = none
  rw [if_neg (by decide)]

/-- C7 (amended): geometry build never aborts on any shape set; it
unconditionally selects the 16-bit index format, and whenever every local
index fits in 16 bits (in particular for any shape set with at most 65536
vertices and in-range indices) the concatenated index data is preserved
unchanged. -/
theorem geometry_build_total (shapes : List MeshData)
    (h : ∀ m ∈ shapes, ∀ ix ∈ m.indices, ix < 65536) :
    (buildShapeGeometry shapes).indexFormatIs16Bit = true ∧
    (buildShapeGeometry shapes).indices16 = (shapes.map MeshData.indices).flatten := by
  refine ⟨rfl, ?_⟩
  show concatIndices16 shapes = _
  rw [concatIndices16]
  congr 1
  refine List.map_congr_left ?_
  intro m hm
  rw [getIndices16]
  conv_rhs => rw [← List.map_id m.indices]
  refine List.map_congr_left ?_
  intro ix hix
  exact Nat.mod_eq_of_lt (h m hm ix hix)

/-- Closed instance of `geometry_build_total` on `demoShapes`. -/
theorem geometry_build_total_witness :
    (buildShapeGeometry demoShapes).indexFormatIs16Bit = true ∧
    (buildShapeGeometry demoShapes).indices16 =
      (demoShapes.map MeshData.indices).flatten :=
  geometry_build_total demoShapes (by decide)

/-- `MathHelper::Clamp` keeps its result within `[low, high]` whenever
`low ≤ high`. -/
lemma clamp_le_bounds (x low high : ℚ) (h : low ≤ high) :
    low ≤ clamp x low high ∧ clamp x low high ≤ high := by
  rw [clamp]
  split_ifs with h1 h2
  · exact ⟨le_refl _, h⟩
  · exact ⟨h, le_refl _⟩
  · constructor <;> linarith

/-- One `OnMouseMove` preserves the camera bounds: the elevation is only
mutated in the left-button branch, where it is immediately clamped to
`[0.1, π - 0.1]`, and the radius only in the right-button branch, where
it is immediately clamped to `[5, 150]`. -/
lemma onMouseMove_preserves (s : CameraState) (m : MouseInput) (hs : CameraInBounds s) :
    CameraInBounds (onMouseMove s m) := by
  obtain ⟨h1, h2, h3, h4⟩ := hs
  rw [onMouseMove, CameraInBounds]
  dsimp only
  split_ifs with hl hr
  · have hc := clamp_le_bounds
      (s.phi + convertToRadians (0.25 * ((m.y - s.lastY : ℤ) : ℚ))) 0.1 (mathHelperPi - 0.1)
      (by rw [mathHelperPi]; norm_num)
    exact ⟨hc.1, hc.2, h3, h4⟩
  · have hc := clamp_le_bounds
      (s.radius + 0.05 * ((m.x - s.lastX : ℤ) : ℚ) - 0.05 * ((m.y - s.lastY : ℤ) : ℚ)) 5 150
      (by norm_num)
    exact ⟨h1, h2, hc.1, hc.2⟩
  · exact ⟨h1, h2, h3, h4⟩

/-- Folding any pointer-move sequence over a state within bounds stays
within bounds. -/
lemma foldl_onMouseMove_preserves (ms : List MouseInput) (s : CameraState)
    (hs : CameraInBounds s) : CameraInBounds (ms.foldl onMouseMove s) := by
  induction ms generalizing s with
  | nil => exact hs
  | cons m ms ih => exact ih _ (onMouseMove_preserves s m hs)

/-- C9: starting from the constructed camera state, after every sequence
of pointer-move events the camera elevation stays within
`[0.1, π - 0.1]` — an interval excluding the gimbal singularities at `0`
and `π` — and the camera radius stays within `[5, 150]`; no input can
drive either outside these bounds. -/
theorem camera_angles_clamped (ms : List MouseInput) :
    CameraInBounds (ms.foldl onMouseMove initCamera) := by
  refine foldl_onMouseMove_preserves ms initCamera ?_
  rw [CameraInBounds, initCamera, mathHelperPi]
  norm_num

end ShapesApp
